import Mathlib

/-!
Verification of the job lifecycle and worker orchestration core of
whisperx-api-server against its natural-language specification.

The embedding follows the Python sources:
- `db_models.py` — the `TranscriptionJob` row type;
- `services/worker.py` — `TranscriptionWorker._get_next_job`,
  `TranscriptionWorker._process_job`, `TranscriptionWorker._cleanup_audio_file`,
  `TranscriptionWorker._run`;
- `routers/transcription_jobs.py` — `_job_to_response`, `create_job`,
  `list_jobs`, `get_job`, `delete_job`.

The persistent store is modelled as a list of job records in insertion
(rowid) order; timestamps are naturals supplied by the caller ("now");
SQL floats are rationals.  External collaborators (the transcription
engine, the json library, the filesystem) are modelled at the boundary
the worker observes: an outcome value for one transcription invocation,
a parse function for `json.loads`, and a set of existing paths for the
filesystem.
-/

namespace WhisperxApiServer

/-- Job status strings stored in the `status` column of `transcription_jobs`
(`db_models.py` line 24): pending, processing, completed, failed. -/
inductive Status where
  | pending
  | processing
  | completed
  | failed
deriving DecidableEq

/-- The string persisted in the database for each status value. -/
def Status.toDbString : Status → String
  | .pending => "pending"
  | .processing => "processing"
  | .completed => "completed"
  | .failed => "failed"

/-- One row of the `transcription_jobs` table (`db_models.py` lines 13-53).
`DateTime` columns are naturals, `Float` columns are rationals; nullable
columns are `Option`. -/
structure JobRecord where
  id : String
  status : Status
  audio_path : String
  original_filename : Option String
  transcript : Option String
  error_message : Option String
  model : String
  language : Option String
  diarize : Bool
  min_speakers : Option Int
  max_speakers : Option Int
  chunk_size : Int
  vad_onset : Rat
  vad_offset : Rat
  duration : Option Rat
  processing_time : Option Rat
  created_at : Nat
  updated_at : Nat
  completed_at : Option Nat
deriving DecidableEq

/-- `db.query(TranscriptionJob).filter(TranscriptionJob.id == i).first()` —
the first row whose primary key equals `i` (the primary key is unique, so
"first" is "the" row). -/
def findJob (store : List JobRecord) (i : String) : Option JobRecord :=
  store.find? (fun k => decide (k.id = i))

/-- Keep the older of a candidate row and the best row seen further on;
on equal `created_at` the earlier (lower rowid) row wins. -/
def pickOlder (k : JobRecord) : Option JobRecord → Option JobRecord
  | none => some k
  | some b => if b.created_at < k.created_at then some b else some k

/-- The row selected by
`db.query(TranscriptionJob).filter(status == "pending").order_by(created_at.asc()).first()`
(`worker.py` lines 96-101): the pending row with the least `created_at`;
ties are broken by scan (rowid / insertion) order, i.e. the earlier row wins. -/
def oldestPending : List JobRecord → Option JobRecord
  | [] => none
  | j :: rest =>
      if j.status = Status.pending then pickOlder j (oldestPending rest)
      else oldestPending rest

/-- `TranscriptionWorker._get_next_job` (`worker.py` lines 90-116): select the
oldest pending row, set its status to `processing`, commit, refresh and return
the updated record; return nothing when no pending row exists.  The commit
flushes `UPDATE transcription_jobs SET status='processing' WHERE id = :id`
(bumping `updated_at` via the column's `onupdate`), and the refresh re-reads
the row. -/
def getNextJob (now : Nat) (store : List JobRecord) :
    Option JobRecord × List JobRecord :=
  match oldestPending store with
  | none => (none, store)
  | some j =>
      (some { j with status := Status.processing, updated_at := now },
       store.map (fun k =>
         if k.id = j.id then { k with status := Status.processing, updated_at := now }
         else k))

/-! ### File lifecycle: `_cleanup_audio_file` (`worker.py` lines 213-222)

The filesystem is a finite set of existing paths (a list, with membership as
`os.path.exists`).  `os.remove` may itself fail; `removeFails` selects that
behaviour of the environment. -/

/-- `os.remove(path)`: removes the path, or raises an `OSError` when the
environment makes the removal fail. -/
def osRemove (removeFails : Bool) (fs : List String) (path : String) :
    Except String (List String) :=
  if removeFails then Except.error "OSError" else Except.ok (fs.filter (fun q => decide (q ≠ path)))

/-- The guarded body inside the `try` of `_cleanup_audio_file`
(`worker.py` lines 217-220): `if audio_path and os.path.exists(audio_path):
os.remove(audio_path)`.  An empty path is falsy in Python, so nothing is
attempted for it. -/
def cleanupAudioFileBody (removeFails : Bool) (fs : List String) (path : String) :
    Except String (List String) :=
  if path ≠ "" ∧ path ∈ fs then osRemove removeFails fs path else Except.ok fs

/-- `TranscriptionWorker._cleanup_audio_file` (`worker.py` lines 213-222) as its
caller observes it: the `except` clause catches any failure, logs it, and
returns normally, leaving the filesystem as the failed removal left it
(unchanged). -/
def cleanupAudioFileRun (removeFails : Bool) (fs : List String) (path : String) :
    Except String (List String) :=
  match cleanupAudioFileBody removeFails fs path with
  | Except.ok fs2 => Except.ok fs2
  | Except.error _ => Except.ok fs

/-- The filesystem after `_cleanup_audio_file` returns (it always returns). -/
def cleanupAudioFile (removeFails : Bool) (fs : List String) (path : String) :
    List String :=
  match cleanupAudioFileRun removeFails fs path with
  | Except.ok fs2 => fs2
  | Except.error _ => fs

/-! ### One transcription invocation (`worker.py` lines 128-165)

`transcriber.transcribe` is an external collaborator; the worker observes
either a result dictionary or a raised exception. -/

/-- The `segments` entry of the result dictionary: a flat list, a dict wrapping
a `segments` list (`worker.py` lines 173-175 tolerate one level of nesting),
or absent (`result.get("segments", [])` defaults to the empty list).  Each
segment dict is opaque to the worker, which only re-serializes it, so a
segment is modelled by its JSON rendering. -/
inductive SegmentsValue where
  | flat (segs : List String)
  | wrapped (segs : List String)
  | missing
deriving DecidableEq

/-- `segments = result.get("segments", []); if isinstance(segments, dict):
segments = segments.get("segments", [])` (`worker.py` lines 173-175). -/
def extractSegments : SegmentsValue → List String
  | .flat segs => segs
  | .wrapped segs => segs
  | .missing => []

/-- The result dictionary of a successful `transcriber.transcribe` call, as read
by the worker: `result.get("text", "")`, `result.get("segments", [])`,
`result.get("language", "")`, `result.get("duration")`. -/
structure RawResult where
  text : Option String
  segments : SegmentsValue
  language : Option String
  duration : Option Rat
deriving DecidableEq

/-- A JSON string literal; escaping of special characters is the json
library's concern and is not modelled. -/
def jsonString (s : String) : String := "\"" ++ s ++ "\""

/-- `json.dumps({"text": ..., "segments": ..., "language": ...})`
(`worker.py` lines 177-181): the transcript column written on success.
Always a non-empty string. -/
def encodeTranscript (res : RawResult) : String :=
  "\x7b\"text\": " ++ jsonString (res.text.getD "") ++
    ", \"segments\": [" ++ String.intercalate ", " (extractSegments res.segments) ++
    "], \"language\": " ++ jsonString (res.language.getD "") ++ "\x7d"

/-- What one transcription invocation did: succeeded with a result dictionary
after `elapsed` seconds, or raised an exception whose `str(e)` is `msg`.
On the failure path `processing_time = time.time() - start_time if 'start_time'
in locals() else None` (`worker.py` line 201): `elapsed` is that best-effort
value (`none` when the exception predates `start_time`). -/
inductive Outcome where
  | success (res : RawResult) (elapsed : Rat)
  | failure (msg : String) (elapsed : Option Rat)
deriving DecidableEq

/-- `UPDATE ... WHERE id = :i` — rewrite the row with primary key `i`. -/
def updateById (store : List JobRecord) (i : String) (f : JobRecord → JobRecord) :
    List JobRecord :=
  store.map (fun k => if k.id = i then f k else k)

/-- The observable effect of one `TranscriptionWorker._process_job` run
(`worker.py` lines 118-211): the store after its commit, the filesystem after
its cleanup, and the paths for which `_cleanup_audio_file` was invoked. -/
structure ProcResult where
  store : List JobRecord
  fs : List String
  cleanupCalls : List String
deriving DecidableEq

/-- `TranscriptionWorker._process_job` (`worker.py` lines 118-211), given the
outcome of the transcription invocation for the claimed job `jobId`.

Success (`worker.py` lines 168-190): the job is re-fetched by id; its status
becomes `completed`, the transcript JSON, duration, processing time and
`completed_at` are written (the commit bumps `updated_at`), then
`_cleanup_audio_file(job.audio_path)` runs once.  When the re-fetch finds no
row (the job was externally deleted) the attribute assignment on `None`
raises, and the exception handler's own re-fetch (line 197) also finds no row:
nothing is updated and no cleanup runs.

Failure (`worker.py` lines 192-208): the job is re-fetched; if present its
status becomes `failed` with `error_message = str(e)` and the best-effort
processing time — `completed_at` is not written on this path — then
`_cleanup_audio_file(job.audio_path)` runs once.  If absent, nothing happens. -/
def processJob (now : Nat) (o : Outcome) (jobId : String) (store : List JobRecord)
    (fs : List String) (removeFails : Bool) : ProcResult :=
  match o with
  | .success res elapsed =>
      match findJob store jobId with
      | some k =>
          { store := updateById store jobId (fun j =>
              { j with status := Status.completed,
                       transcript := some (encodeTranscript res),
                       duration := res.duration,
                       processing_time := some elapsed,
                       completed_at := some now,
                       updated_at := now }),
            fs := cleanupAudioFile removeFails fs k.audio_path,
            cleanupCalls := [k.audio_path] }
      | none => { store := store, fs := fs, cleanupCalls := [] }
  | .failure msg elapsed =>
      match findJob store jobId with
      | some k =>
          { store := updateById store jobId (fun j =>
              { j with status := Status.failed,
                       error_message := some msg,
                       processing_time := elapsed,
                       updated_at := now }),
            fs := cleanupAudioFile removeFails fs k.audio_path,
            cleanupCalls := [k.audio_path] }
      | none => { store := store, fs := fs, cleanupCalls := [] }

/-! ### The transcription call built by the worker (`worker.py` lines 144-161) -/

/-- The keyword arguments of the `transcriber.transcribe(...)` invocation in
`_process_job` (`worker.py` lines 150-161).  `audio_file` is a wrapper reading
`job.audio_path`; `whispermodel` is `load_model_instance(job.model)`, i.e. the
engine instance for the job's model identifier; `asr_options` is the empty
dict literal. -/
structure TranscribeCall where
  audio_file_path : String
  batch_size : Int
  chunk_size : Int
  asr_options_empty : Bool
  language : Option String
  whisper_model : String
  align : Bool
  diarize : Bool
  request_id : String
  task : String
deriving DecidableEq

/-- The call `_process_job` builds from a claimed job (`worker.py` lines
144-161), field by field. -/
def buildTranscribeCall (job : JobRecord) : TranscribeCall :=
  { audio_file_path := job.audio_path
    batch_size := 16
    chunk_size := job.chunk_size
    asr_options_empty := true
    language := job.language
    whisper_model := job.model
    align := true
    diarize := job.diarize
    request_id := job.id
    task := "transcribe" }

/-! ### The core as a transition system

Producers (the HTTP layer), the single worker, and consumers all act on the
shared store through the operations below.  The worker contributes two
store-visible commits per iteration: the claim (`_get_next_job`) and the
write-back (`_process_job`); API requests can interleave between them, which
the `current` field (the worker's `_current_job_id`) makes explicit. -/

/-- Configuration fields of `create_job` (`routers/transcription_jobs.py`
lines 83-131), stored verbatim on the new row. -/
structure JobConfig where
  model : String
  language : Option String
  diarize : Bool
  min_speakers : Option Int
  max_speakers : Option Int
  chunk_size : Int
  vad_onset : Rat
  vad_offset : Rat
deriving DecidableEq

/-- The row inserted by `create_job` (`routers/transcription_jobs.py` lines
119-135): status `pending`, no transcript, no error, no metrics, timestamps
from the insert. -/
def newJobRecord (now : Nat) (i path : String) (fname : Option String)
    (cfg : JobConfig) : JobRecord :=
  { id := i
    status := Status.pending
    audio_path := path
    original_filename := fname
    transcript := none
    error_message := none
    model := cfg.model
    language := cfg.language
    diarize := cfg.diarize
    min_speakers := cfg.min_speakers
    max_speakers := cfg.max_speakers
    chunk_size := cfg.chunk_size
    vad_onset := cfg.vad_onset
    vad_offset := cfg.vad_offset
    duration := none
    processing_time := none
    created_at := now
    updated_at := now
    completed_at := none }

/-- Global state of the core: the job table, the set of existing upload paths,
the worker's `_current_job_id`, every id ever issued (ids are fresh uuid4
values, never reused), and the paths for which artifact deletion has been
requested so far. -/
structure SysState where
  store : List JobRecord
  fs : List String
  current : Option String
  usedIds : List String
  cleanupLog : List String
deriving DecidableEq

/-- The empty initial state. -/
def initState : SysState :=
  { store := [], fs := [], current := none, usedIds := [], cleanupLog := [] }

/-- The operations of the core.  `create` is the producer insert
(`create_job`); `claim` and `process` are the two halves of one worker
iteration (`_get_next_job`, then `_process_job` with the invocation's
outcome); `deleteJob` is the consumer delete (`delete_job`). -/
inductive Op where
  | create (now : Nat) (i path : String) (fname : Option String) (cfg : JobConfig)
  | claim (now : Nat)
  | process (now : Nat) (o : Outcome) (removeFails : Bool)
  | deleteJob (i : String) (removeFails : Bool)
deriving DecidableEq

/-- One operation applied to the state.

`create`: saves the upload then inserts a `pending` row (ids are uuid4 and
thus fresh; an insert whose id collided would raise out of the route and
change nothing, so it is a no-op here).

`claim`: the worker polls only between jobs, so a claim with a job in flight
does not occur and is a no-op; otherwise `_get_next_job` runs and, when it
returns a row, that row's id becomes the worker's current job.

`process`: `_process_job` on the current job with the given outcome; the
`finally` clause clears `_current_job_id` (`worker.py` line 211).

`deleteJob`: `delete_job` (`routers/transcription_jobs.py` lines 201-221)
removes the row's audio file best-effort (same guarded try/except shape as
`_cleanup_audio_file`) and deletes the row; a missing id is a 404 and changes
nothing. -/
def applyOp (s : SysState) : Op → SysState
  | .create now i path fname cfg =>
      if i ∈ s.usedIds then s
      else
        { s with store := s.store ++ [newJobRecord now i path fname cfg],
                 fs := s.fs.insert path,
                 usedIds := i :: s.usedIds }
  | .claim now =>
      match s.current with
      | some _ => s
      | none =>
          match getNextJob now s.store with
          | (none, _) => s
          | (some r, store2) => { s with store := store2, current := some r.id }
  | .process now o removeFails =>
      match s.current with
      | none => s
      | some i =>
          let r := processJob now o i s.store s.fs removeFails
          { store := r.store
            fs := r.fs
            current := none
            usedIds := s.usedIds
            cleanupLog := s.cleanupLog ++ r.cleanupCalls }
  | .deleteJob i removeFails =>
      match findJob s.store i with
      | none => s
      | some j =>
          { s with store := s.store.eraseP (fun k => decide (k.id = i)),
                   fs := cleanupAudioFile removeFails s.fs j.audio_path }

/-- Run a sequence of operations from a given state. -/
def runOpsFrom (s : SysState) : List Op → SysState
  | [] => s
  | op :: rest => runOpsFrom (applyOp s op) rest

/-- Every reachable state is `runOps ops` for some operation sequence. -/
def runOps (ops : List Op) : SysState :=
  runOpsFrom initState ops

/-- The transitions the specification's state machine allows between two
observations of the same row: no change, `pending→processing`,
`processing→completed`, or `processing→failed`. -/
def allowedTransition (a b : Status) : Prop :=
  a = b ∨ (a = Status.pending ∧ b = Status.processing) ∨
    (a = Status.processing ∧ b = Status.completed) ∨
    (a = Status.processing ∧ b = Status.failed)

/-- Status-dependent column constraints: `transcript` is set exactly on
`completed`, `error_message` exactly on `failed`, and `completed_at` is set on
`completed` and on no other status (the failure path of `_process_job` never
writes it). -/
def FieldsInv (j : JobRecord) : Prop :=
  match j.status with
  | Status.pending => j.transcript = none ∧ j.error_message = none ∧ j.completed_at = none
  | Status.processing => j.transcript = none ∧ j.error_message = none ∧ j.completed_at = none
  | Status.completed => j.transcript ≠ none ∧ j.error_message = none ∧ j.completed_at ≠ none
  | Status.failed => j.error_message ≠ none ∧ j.transcript = none ∧ j.completed_at = none

/-- Inductive invariant of the core: every stored id was issued; primary keys
are unique; the worker's current job, when stored, is in `processing`; the
current job id was issued; and every row satisfies `FieldsInv`. -/
def Inv (s : SysState) : Prop :=
  (∀ j ∈ s.store, j.id ∈ s.usedIds) ∧
    (s.store.map JobRecord.id).Nodup ∧
    (∀ i, s.current = some i → ∀ j ∈ s.store, j.id = i → j.status = Status.processing) ∧
    (∀ i, s.current = some i → i ∈ s.usedIds) ∧
    (∀ j ∈ s.store, FieldsInv j)

/-! ### Concurrent claims at statement granularity (`worker.py` lines 96-108)

`_get_next_job` issues two separate statements against the shared store: the
SELECT of the oldest pending row, and then — on the Python objects it got
back — an unconditional `UPDATE ... SET status='processing' WHERE id = :id`
flushed by `commit()` (no `WHERE status='pending'` guard).  Two invocations
from different execution contexts can therefore interleave between the two
statements.  The model below runs two sessions, `A` and `B`, each holding the
row its SELECT returned and, once finished, its return value. -/

/-- One session running `_get_next_job`: the SELECT result once the read has
executed, and the value returned to the caller once the write/commit has
executed. -/
structure ClaimSession where
  readv : Option (Option JobRecord)
  ret : Option (Option JobRecord)
deriving DecidableEq

/-- Two sessions over one shared store. -/
structure ClaimRace where
  store : List JobRecord
  a : ClaimSession
  b : ClaimSession
deriving DecidableEq

/-- Both sessions start with neither statement executed. -/
def initRace (store : List JobRecord) : ClaimRace :=
  { store := store, a := ⟨none, none⟩, b := ⟨none, none⟩ }

/-- A scheduling step: which session (`false` = A, `true` = B) executes which
of its two statements next. -/
inductive ClaimAction where
  | read (sess : Bool)
  | write (sess : Bool)
deriving DecidableEq

/-- Execute the session's SELECT against the current shared store. -/
def sessionRead (store : List JobRecord) (s : ClaimSession) : ClaimSession :=
  { s with readv := some (oldestPending store) }

/-- Execute the session's UPDATE + commit + refresh: the row the SELECT
returned is set to `processing` by primary key, unconditionally, and the
refreshed row is returned; a SELECT that found nothing returns `None` without
writing. -/
def sessionWrite (now : Nat) (store : List JobRecord) (s : ClaimSession) :
    List JobRecord × ClaimSession :=
  match s.readv with
  | some (some j) =>
      let store2 := updateById store
        (j.id) (fun k => { k with status := Status.processing, updated_at := now })
      (store2, { s with ret := some (findJob store2 j.id) })
  | some none => (store, { s with ret := some none })
  | none => (store, s)

/-- One scheduling step of the two-session race. -/
def raceStep (now : Nat) (st : ClaimRace) : ClaimAction → ClaimRace
  | .read false => { st with a := sessionRead st.store st.a }
  | .read true => { st with b := sessionRead st.store st.b }
  | .write false =>
      match sessionWrite now st.store st.a with
      | (store2, s2) => { st with store := store2, a := s2 }
  | .write true =>
      match sessionWrite now st.store st.b with
      | (store2, s2) => { st with store := store2, b := s2 }

/-- Run a schedule of the two-session race. -/
def runRace (now : Nat) (st : ClaimRace) : List ClaimAction → ClaimRace
  | [] => st
  | act :: rest => runRace now (raceStep now st act) rest

/-- The interleaved schedule: both SELECTs execute before either commit. -/
def schedInterleaved : List ClaimAction :=
  [ClaimAction.read false, ClaimAction.read true,
   ClaimAction.write false, ClaimAction.write true]

/-- The serialized schedule: each invocation completes before the other
starts. -/
def schedSerial : List ClaimAction :=
  [ClaimAction.read false, ClaimAction.write false,
   ClaimAction.read true, ClaimAction.write true]

/-! ### The worker loop (`worker.py` lines 73-88) -/

/-- What one iteration body does: claims and processes a job, finds no job
(and sleeps), or raises an exception out of the body. -/
inductive IterOutcome where
  | gotJob
  | noJob
  | raised (msg : String)
deriving DecidableEq

/-- Observable loop events: a job processed, a poll sleep, an exception caught
and logged (followed by the poll sleep), or the loop exiting. -/
inductive LoopEvent where
  | processed
  | slept
  | caughtError (msg : String)
  | exited
deriving DecidableEq

/-- The event produced by one iteration body under the `try`/`except` of
`_run`: an exception is caught, logged, and followed by the poll sleep —
never re-raised. -/
def iterEvent : IterOutcome → LoopEvent
  | .gotJob => .processed
  | .noJob => .slept
  | .raised m => .caughtError m

/-- `TranscriptionWorker._run` (`worker.py` lines 73-88): `while
self._running:` re-reads the flag before each iteration (`flags` lists the
successive values it reads; `stop()` is what clears the flag), runs the body,
catches any exception, and repeats.  The trace records one event per
iteration and `exited` exactly when a false flag is read.  When the modelled
outcome list runs out while the flag is still true the trace simply ends:
the loop itself has not exited. -/
def runLoop : List Bool → List IterOutcome → List LoopEvent
  | f :: fs, o :: os => if f then iterEvent o :: runLoop fs os else [LoopEvent.exited]
  | f :: _, [] => if f then [] else [LoopEvent.exited]
  | [], _ => []

/-! ### The read interface (`routers/transcription_jobs.py`)

`_job_to_response` parses the stored transcript with `json.loads`.  The json
library is external; the embedding takes the parse as a function from the
stored string to the payload `_job_to_response` reads out of it — `none`
models a raised `json.JSONDecodeError`, which the route catches. -/

/-- One raw segment dict as `_job_to_response` reads it: `seg.get("start", 0)`,
`seg.get("end", 0)`, `seg.get("text", "")`, `seg.get("speaker")`
(`routers/transcription_jobs.py` lines 42-50). -/
structure RawSegment where
  start : Option Rat
  «end» : Option Rat
  text : Option String
  speaker : Option String
deriving DecidableEq

/-- The successfully parsed transcript dict: `transcript_data.get("text")`,
`transcript_data.get("language")`, `transcript_data.get("segments", [])`. -/
structure TranscriptPayload where
  text : Option String
  language : Option String
  segments : List RawSegment
deriving DecidableEq

/-- `TranscriptSegment` of the response schema (`schemas.py` lines 27-33). -/
structure RespSegment where
  start : Rat
  «end» : Rat
  text : String
  speaker : Option String
deriving DecidableEq

/-- `TranscriptionJobResponse` (`schemas.py` lines 36-64). -/
structure JobResponse where
  id : String
  status : Status
  original_filename : Option String
  model : String
  language : Option String
  diarize : Bool
  min_speakers : Option Int
  max_speakers : Option Int
  chunk_size : Int
  text : Option String
  segments : Option (List RespSegment)
  detected_language : Option String
  duration : Option Rat
  processing_time : Option Rat
  error_message : Option String
  created_at : Nat
  updated_at : Nat
  completed_at : Option Nat
deriving DecidableEq

/-- `_job_to_response` (`routers/transcription_jobs.py` lines 29-73).
`if job.transcript:` — a null or empty transcript skips parsing entirely.
When `json.loads` raises (`parse` returns `none`) the `except
json.JSONDecodeError` branch only logs, so `text`, `segments` and
`detected_language` stay `None` and a response is still produced. -/
def jobToResponse (parse : String → Option TranscriptPayload) (job : JobRecord) :
    JobResponse :=
  let parsed : Option TranscriptPayload :=
    match job.transcript with
    | some t => if t ≠ "" then parse t else none
    | none => none
  let text : Option String := match parsed with
    | some payload => payload.text
    | none => none
  let detected_language : Option String := match parsed with
    | some payload => payload.language
    | none => none
  let segments : Option (List RespSegment) := match parsed with
    | some payload =>
        some (payload.segments.map (fun seg =>
          { start := seg.start.getD 0
            «end» := seg.«end».getD 0
            text := seg.text.getD ""
            speaker := seg.speaker }))
    | none => none
  { id := job.id
    status := job.status
    original_filename := job.original_filename
    model := job.model
    language := job.language
    diarize := job.diarize
    min_speakers := job.min_speakers
    max_speakers := job.max_speakers
    chunk_size := job.chunk_size
    text := text
    segments := segments
    detected_language := detected_language
    duration := job.duration
    processing_time := job.processing_time
    error_message := job.error_message
    created_at := job.created_at
    updated_at := job.updated_at
    completed_at := job.completed_at }

/-- `get_job` (`routers/transcription_jobs.py` lines 184-192): 404 when the id
is absent, otherwise the converted record. -/
def getJob (parse : String → Option TranscriptPayload) (store : List JobRecord)
    (i : String) : Except String JobResponse :=
  match findJob store i with
  | none => Except.error "404"
  | some job => Except.ok (jobToResponse parse job)

/-- Insert a record into a list kept in `created_at` descending order. -/
def insertDesc (j : JobRecord) : List JobRecord → List JobRecord
  | [] => [j]
  | k :: rest =>
      if j.created_at ≤ k.created_at then k :: insertDesc j rest
      else j :: k :: rest

/-- `ORDER BY created_at DESC` (`routers/transcription_jobs.py` line 167). -/
def sortByCreatedDesc (l : List JobRecord) : List JobRecord :=
  l.foldr insertDesc []

/-- `TranscriptionJobListResponse` (`schemas.py` lines 70-76). -/
structure JobListResponse where
  jobs : List JobResponse
  total : Int
  page : Int
  limit : Int
deriving DecidableEq

/-- `list_jobs` (`routers/transcription_jobs.py` lines 148-174): optional
status filter (`if status:` — the empty string is falsy and filters nothing),
total count of the filtered query, then `ORDER BY created_at DESC OFFSET
(page-1)*limit LIMIT limit`.  The route is used with positive `page` and
non-negative `limit`; the clamp `Int.toNat` records that reading. -/
def listJobs (parse : String → Option TranscriptPayload) (store : List JobRecord)
    (page limit : Int) (statusFilter : Option String) : JobListResponse :=
  let q : List JobRecord :=
    match statusFilter with
    | some sf =>
        if sf ≠ "" then store.filter (fun j => decide (j.status.toDbString = sf))
        else store
    | none => store
  let total : Int := q.length
  let offset : Int := (page - 1) * limit
  let pageJobs : List JobRecord :=
    ((sortByCreatedDesc q).drop offset.toNat).take limit.toNat
  { jobs := pageJobs.map (jobToResponse parse)
    total := total
    page := page
    limit := limit }

/-! ### Concrete sample data used by witnesses and counterexamples -/

/-- A configuration like the route's defaults
(`routers/transcription_jobs.py` lines 85-92); the VAD thresholds are sample
rational values. -/
def cfgSample : JobConfig :=
  { model := "small"
    language := none
    diarize := false
    min_speakers := none
    max_speakers := none
    chunk_size := 15
    vad_onset := 1
    vad_offset := 2 }

/-- A freshly inserted pending job with the default configuration. -/
def sampleJob (i : String) (created : Nat) : JobRecord :=
  newJobRecord created i ("/uploads/" ++ i ++ ".wav") none cfgSample

/-- Insert one job `j1` at time 0. -/
def opsCreateOne : List Op :=
  [Op.create 0 "j1" "/uploads/j1.wav" none cfgSample]

/-- Insert `j1`, then let the worker claim it at time 1. -/
def opsClaimOne : List Op :=
  opsCreateOne ++ [Op.claim 1]

/-- Insert `j1`, claim it, then process it with a failing transcription
invocation (`str(e) = "boom"`, best-effort elapsed time 3). -/
def opsFailOne : List Op :=
  opsClaimOne ++ [Op.process 2 (Outcome.failure "boom" (some 3)) false]

/-- A job whose speaker bounds and VAD thresholds differ from the defaults. -/
def jobVadA : JobRecord :=
  { sampleJob "jx" 0 with
      min_speakers := some 1
      max_speakers := some 2
      vad_onset := 3
      vad_offset := 4 }

/-- The same job with the default speaker bounds and VAD thresholds. -/
def jobVadB : JobRecord :=
  sampleJob "jx" 0

/-- A completed job whose stored transcript column holds a string that is not
valid JSON. -/
def jobBadTranscript : JobRecord :=
  { sampleJob "jc" 0 with
      status := Status.completed
      transcript := some "not valid json"
      completed_at := some 9 }

/-! ### Helper lemmas about `findJob` and `oldestPending` -/

theorem findJob_id {store : List JobRecord} {i : String} {j : JobRecord}
    (h : findJob store i = some j) : j.id = i := by
  have h2 := List.find?_some h
  simpa using h2

theorem findJob_mem {store : List JobRecord} {i : String} {j : JobRecord}
    (h : findJob store i = some j) : j ∈ store :=
  List.mem_of_find?_eq_some h

theorem findJob_of_mem_nodup {store : List JobRecord} {j : JobRecord}
    (hnd : (store.map JobRecord.id).Nodup) (hm : j ∈ store) :
    findJob store j.id = some j := by
  induction store with
  | nil => cases hm
  | cons k rest ih =>
      rw [List.map_cons, List.nodup_cons] at hnd
      rcases List.mem_cons.mp hm with h | h
      · subst h
        simp [findJob]
      · by_cases hk : k.id = j.id
        · have hmem : j.id ∈ rest.map JobRecord.id := List.mem_map_of_mem JobRecord.id h
          rw [← hk] at hmem
          exact absurd hmem hnd.1
        · unfold findJob
          rw [List.find?_cons_of_neg _ (by simpa using hk)]
          exact ih hnd.2 h

theorem eq_of_mem_id_eq_nodup {store : List JobRecord} {j k : JobRecord}
    (hnd : (store.map JobRecord.id).Nodup) (hj : j ∈ store) (hk : k ∈ store)
    (h : k.id = j.id) : k = j := by
  have h1 := findJob_of_mem_nodup hnd hj
  have h2 := findJob_of_mem_nodup hnd hk
  rw [h, h1] at h2
  exact (Option.some.inj h2).symm

theorem findJob_map_pres {f : JobRecord → JobRecord} (hf : ∀ k, (f k).id = k.id)
    (store : List JobRecord) (i : String) :
    findJob (store.map f) i = (findJob store i).map f := by
  unfold findJob
  rw [List.find?_map]
  have hp : ((fun k : JobRecord => decide (k.id = i)) ∘ f) =
      (fun k : JobRecord => decide (k.id = i)) := by
    funext k
    simp [Function.comp, hf k]
  rw [hp]

theorem findJob_append_left {store l2 : List JobRecord} {i : String} {j : JobRecord}
    (h : findJob store i = some j) : findJob (store ++ l2) i = some j := by
  unfold findJob at h ⊢
  rw [List.find?_append, h]
  rfl

theorem pickOlder_ne_none (k : JobRecord) (o : Option JobRecord) :
    pickOlder k o ≠ none := by
  cases o with
  | none => simp [pickOlder]
  | some b =>
      unfold pickOlder
      by_cases hb : b.created_at < k.created_at <;> simp [hb]

theorem oldestPending_mem {store : List JobRecord} {j : JobRecord}
    (h : oldestPending store = some j) : j ∈ store := by
  induction store with
  | nil => cases h
  | cons k rest ih =>
      unfold oldestPending at h
      by_cases hk : k.status = Status.pending
      · rw [if_pos hk] at h
        cases hop : oldestPending rest with
        | none =>
            rw [hop] at h
            simp only [pickOlder] at h
            cases h
            exact List.mem_cons_self _ _
        | some b =>
            rw [hop] at h
            simp only [pickOlder] at h
            by_cases hlt : b.created_at < k.created_at
            · rw [if_pos hlt] at h
              cases h
              exact List.mem_cons_of_mem _ (ih hop)
            · rw [if_neg hlt] at h
              cases h
              exact List.mem_cons_self _ _
      · rw [if_neg hk] at h
        exact List.mem_cons_of_mem _ (ih h)

theorem oldestPending_pending {store : List JobRecord} {j : JobRecord}
    (h : oldestPending store = some j) : j.status = Status.pending := by
  induction store with
  | nil => cases h
  | cons k rest ih =>
      unfold oldestPending at h
      by_cases hk : k.status = Status.pending
      · rw [if_pos hk] at h
        cases hop : oldestPending rest with
        | none =>
            rw [hop] at h
            simp only [pickOlder] at h
            cases h
            exact hk
        | some b =>
            rw [hop] at h
            simp only [pickOlder] at h
            by_cases hlt : b.created_at < k.created_at
            · rw [if_pos hlt] at h
              cases h
              exact ih hop
            · rw [if_neg hlt] at h
              cases h
              exact hk
      · rw [if_neg hk] at h
        exact ih h

theorem oldestPending_none {store : List JobRecord}
    (h : oldestPending store = none) :
    ∀ j ∈ store, ¬ j.status = Status.pending := by
  induction store with
  | nil => intro j hj; cases hj
  | cons k rest ih =>
      intro j hj
      unfold oldestPending at h
      by_cases hk : k.status = Status.pending
      · rw [if_pos hk] at h
        exact absurd h (pickOlder_ne_none _ _)
      · rw [if_neg hk] at h
        rcases List.mem_cons.mp hj with hx | hx
        · subst hx; exact hk
        · exact ih h j hx

theorem oldestPending_min {store : List JobRecord} {j : JobRecord}
    (h : oldestPending store = some j) :
    ∀ k ∈ store, k.status = Status.pending → j.created_at ≤ k.created_at := by
  induction store generalizing j with
  | nil => cases h
  | cons k rest ih =>
      intro m hm hmp
      unfold oldestPending at h
      by_cases hk : k.status = Status.pending
      · rw [if_pos hk] at h
        cases hop : oldestPending rest with
        | none =>
            rw [hop] at h
            simp only [pickOlder] at h
            cases h
            rcases List.mem_cons.mp hm with hx | hx
            · subst hx; exact le_refl _
            · exact absurd hmp (oldestPending_none hop m hx)
        | some b =>
            rw [hop] at h
            simp only [pickOlder] at h
            by_cases hlt : b.created_at < k.created_at
            · rw [if_pos hlt] at h
              cases h
              rcases List.mem_cons.mp hm with hx | hx
              · subst hx; exact le_of_lt hlt
              · exact ih hop m hx hmp
            · rw [if_neg hlt] at h
              cases h
              rcases List.mem_cons.mp hm with hx | hx
              · subst hx; exact le_refl _
              · have hb := ih hop m hx hmp
                exact le_trans (le_of_not_lt hlt) hb
      · rw [if_neg hk] at h
        rcases List.mem_cons.mp hm with hx | hx
        · subst hx; exact absurd hmp hk
        · exact ih h m hx hmp

theorem oldestPending_eq_none {store : List JobRecord}
    (h : ∀ j ∈ store, ¬ j.status = Status.pending) :
    oldestPending store = none := by
  induction store with
  | nil => rfl
  | cons k rest ih =>
      unfold oldestPending
      rw [if_neg (h k (List.mem_cons_self _ _))]
      exact ih (fun j hj => h j (List.mem_cons_of_mem _ hj))

/-! ### The inductive invariant of the transition system -/

theorem nodup_append_one {l : List String} {a : String} (hnd : l.Nodup)
    (ha : a ∉ l) : (l ++ [a]).Nodup := by
  induction l with
  | nil => simp
  | cons x xs ih =>
      rw [List.cons_append, List.nodup_cons]
      rw [List.nodup_cons] at hnd
      constructor
      · intro hx
        rcases List.mem_append.mp hx with hy | hy
        · exact hnd.1 hy
        · rcases List.mem_singleton.mp hy with rfl
          exact ha (List.mem_cons_self _ _)
      · exact ih hnd.2 (fun hz => ha (List.mem_cons_of_mem _ hz))

theorem map_id_of_pres {f : JobRecord → JobRecord} (hf : ∀ k, (f k).id = k.id)
    (store : List JobRecord) :
    (store.map f).map JobRecord.id = store.map JobRecord.id := by
  rw [List.map_map]
  exact List.map_congr_left (fun a _ => hf a)

theorem inv_initState : Inv initState := by
  refine ⟨?_, ?_, ?_, ?_, ?_⟩
  · intro j hj; cases hj
  · simp [initState]
  · intro c hc; cases hc
  · intro c hc; cases hc
  · intro j hj; cases hj

theorem inv_applyOp {s : SysState} (hInv : Inv s) (op : Op) : Inv (applyOp s op) := by
  obtain ⟨h1, h2, h3, h4, h5⟩ := hInv
  cases op with
  | create now i path fname cfg =>
      simp only [applyOp]
      by_cases hi : i ∈ s.usedIds
      · rw [if_pos hi]
        exact ⟨h1, h2, h3, h4, h5⟩
      · rw [if_neg hi]
        have hni : i ∉ s.store.map JobRecord.id := by
          intro hmem
          rcases List.mem_map.mp hmem with ⟨j, hj, hji⟩
          exact hi (hji ▸ h1 j hj)
        refine ⟨?_, ?_, ?_, ?_, ?_⟩
        · intro j hj
          rcases List.mem_append.mp hj with hx | hx
          · exact List.mem_cons_of_mem _ (h1 j hx)
          · rcases List.mem_singleton.mp hx with rfl
            exact List.mem_cons_self _ _
        · rw [List.map_append]
          exact nodup_append_one h2 hni
        · intro c hc j hj hjc
          rcases List.mem_append.mp hj with hx | hx
          · exact h3 c hc j hx hjc
          · rcases List.mem_singleton.mp hx with rfl
            have hic : i = c := hjc
            subst hic
            exact absurd (h4 i hc) hi
        · intro c hc
          exact List.mem_cons_of_mem _ (h4 c hc)
        · intro j hj
          rcases List.mem_append.mp hj with hx | hx
          · exact h5 j hx
          · rcases List.mem_singleton.mp hx with rfl
            simp [FieldsInv, newJobRecord]
  | claim now =>
      simp only [applyOp]
      cases hcur : s.current with
      | some c => exact ⟨h1, h2, h3, h4, h5⟩
      | none =>
          simp only [getNextJob]
          cases hop : oldestPending s.store with
          | none => exact ⟨h1, h2, h3, h4, h5⟩
          | some jsel =>
              have hmemsel : jsel ∈ s.store := oldestPending_mem hop
              have hpend : jsel.status = Status.pending := oldestPending_pending hop
              have hf : ∀ k : JobRecord,
                  ((if k.id = jsel.id
                    then { k with status := Status.processing, updated_at := now }
                    else k) : JobRecord).id = k.id := by
                intro k
                by_cases hk : k.id = jsel.id <;> simp [hk]
              refine ⟨?_, ?_, ?_, ?_, ?_⟩
              · intro j hj
                rcases List.mem_map.mp hj with ⟨k0, hk0, rfl⟩
                rw [hf k0]
                exact h1 k0 hk0
              · rw [map_id_of_pres hf]
                exact h2
              · intro c hc j hj hjc
                rcases List.mem_map.mp hj with ⟨k0, hk0, rfl⟩
                have hcid : jsel.id = c := Option.some.inj hc
                by_cases hk : k0.id = jsel.id
                · simp [hk]
                · rw [if_neg hk] at hjc ⊢
                  exact absurd (hjc.trans hcid.symm) hk
              · intro c hc
                have hcid : jsel.id = c := Option.some.inj hc
                exact hcid ▸ h1 jsel hmemsel
              · intro j hj
                rcases List.mem_map.mp hj with ⟨k0, hk0, rfl⟩
                by_cases hk : k0.id = jsel.id
                · have hk0sel : k0 = jsel := eq_of_mem_id_eq_nodup h2 hmemsel hk0 hk
                  subst hk0sel
                  have hfi := h5 k0 hk0
                  rw [if_pos hk]
                  simp [FieldsInv, hpend] at hfi
                  simp [FieldsInv, hfi]
                · rw [if_neg hk]
                  exact h5 k0 hk0
  | process now o removeFails =>
      simp only [applyOp]
      cases hcur : s.current with
      | none => exact ⟨h1, h2, h3, h4, h5⟩
      | some c =>
          simp only [processJob]
          have hcontnone :
              ∀ (st : List JobRecord) (fsx lg : List String),
                (∀ j ∈ st, j.id ∈ s.usedIds) →
                (st.map JobRecord.id).Nodup →
                (∀ j ∈ st, FieldsInv j) →
                Inv { store := st, fs := fsx, current := none,
                      usedIds := s.usedIds, cleanupLog := lg } := by
            intro st fsx lg ha hb hcinv
            refine ⟨ha, hb, ?_, ?_, hcinv⟩
            · intro c2 hc2; cases hc2
            · intro c2 hc2; cases hc2
          cases o with
          | success res elapsed =>
              cases hfind : findJob s.store c with
              | none => exact hcontnone _ _ _ h1 h2 h5
              | some k =>
                  simp only [updateById]
                  have hf : ∀ k0 : JobRecord,
                      ((if k0.id = c
                        then { k0 with status := Status.completed,
                                       transcript := some (encodeTranscript res),
                                       duration := res.duration,
                                       processing_time := some elapsed,
                                       completed_at := some now,
                                       updated_at := now }
                        else k0) : JobRecord).id = k0.id := by
                    intro k0
                    by_cases hk : k0.id = c <;> simp [hk]
                  apply hcontnone
                  · intro j hj
                    rcases List.mem_map.mp hj with ⟨k0, hk0, rfl⟩
                    rw [hf k0]
                    exact h1 k0 hk0
                  · rw [map_id_of_pres hf]
                    exact h2
                  · intro j hj
                    rcases List.mem_map.mp hj with ⟨k0, hk0, rfl⟩
                    by_cases hk : k0.id = c
                    · have hproc : k0.status = Status.processing := h3 c hcur k0 hk0 hk
                      have hfi := h5 k0 hk0
                      rw [if_pos hk]
                      simp [FieldsInv, hproc] at hfi
                      simp [FieldsInv, hfi]
                    · rw [if_neg hk]
                      exact h5 k0 hk0
          | failure msg elapsed =>
              cases hfind : findJob s.store c with
              | none => exact hcontnone _ _ _ h1 h2 h5
              | some k =>
                  simp only [updateById]
                  have hf : ∀ k0 : JobRecord,
                      ((if k0.id = c
                        then { k0 with status := Status.failed,
                                       error_message := some msg,
                                       processing_time := elapsed,
                                       updated_at := now }
                        else k0) : JobRecord).id = k0.id := by
                    intro k0
                    by_cases hk : k0.id = c <;> simp [hk]
                  apply hcontnone
                  · intro j hj
                    rcases List.mem_map.mp hj with ⟨k0, hk0, rfl⟩
                    rw [hf k0]
                    exact h1 k0 hk0
                  · rw [map_id_of_pres hf]
                    exact h2
                  · intro j hj
                    rcases List.mem_map.mp hj with ⟨k0, hk0, rfl⟩
                    by_cases hk : k0.id = c
                    · have hproc : k0.status = Status.processing := h3 c hcur k0 hk0 hk
                      have hfi := h5 k0 hk0
                      rw [if_pos hk]
                      simp [FieldsInv, hproc] at hfi
                      simp [FieldsInv, hfi]
                    · rw [if_neg hk]
                      exact h5 k0 hk0
  | deleteJob i removeFails =>
      simp only [applyOp]
      cases hfind : findJob s.store i with
      | none => exact ⟨h1, h2, h3, h4, h5⟩
      | some j =>
          have hsub : List.Sublist (s.store.eraseP (fun k => decide (k.id = i))) s.store :=
            List.eraseP_sublist _
          refine ⟨?_, ?_, ?_, h4, ?_⟩
          · intro j2 hj2
            exact h1 j2 (hsub.subset hj2)
          · exact List.Nodup.sublist (hsub.map _) h2
          · intro c hc j2 hj2 hj2c
            exact h3 c hc j2 (hsub.subset hj2) hj2c
          · intro j2 hj2
            exact h5 j2 (hsub.subset hj2)

theorem inv_runOpsFrom {s : SysState} (h : Inv s) (ops : List Op) :
    Inv (runOpsFrom s ops) := by
  induction ops generalizing s with
  | nil => exact h
  | cons op rest ih => exact ih (inv_applyOp h op)

theorem inv_runOps (ops : List Op) : Inv (runOps ops) :=
  inv_runOpsFrom inv_initState ops

/-- Observing the same row before and after one operation: its status pair is
among the allowed transitions. -/
theorem step_transition {s : SysState} (hInv : Inv s) (op : Op) {i : String}
    {j j2 : JobRecord} (hb : findJob s.store i = some j)
    (ha : findJob (applyOp s op).store i = some j2) :
    allowedTransition j.status j2.status := by
  obtain ⟨h1, h2, h3, h4, h5⟩ := hInv
  have hji : j.id = i := findJob_id hb
  cases op with
  | create now i2 path fname cfg =>
      simp only [applyOp] at ha
      by_cases hi : i2 ∈ s.usedIds
      · rw [if_pos hi] at ha
        rw [hb] at ha
        cases ha
        exact Or.inl rfl
      · rw [if_neg hi] at ha
        simp only at ha
        rw [findJob_append_left hb] at ha
        cases ha
        exact Or.inl rfl
  | claim now =>
      simp only [applyOp] at ha
      cases hcur : s.current with
      | some c =>
          rw [hcur] at ha
          simp only at ha
          rw [hb] at ha
          cases ha
          exact Or.inl rfl
      | none =>
          rw [hcur] at ha
          simp only [getNextJob] at ha
          cases hop : oldestPending s.store with
          | none =>
              rw [hop] at ha
              simp only at ha
              rw [hb] at ha
              cases ha
              exact Or.inl rfl
          | some jsel =>
              rw [hop] at ha
              simp only at ha
              have hf : ∀ k : JobRecord,
                  ((if k.id = jsel.id
                    then { k with status := Status.processing, updated_at := now }
                    else k) : JobRecord).id = k.id := by
                intro k
                by_cases hk : k.id = jsel.id <;> simp [hk]
              rw [findJob_map_pres hf, hb] at ha
              simp only [Option.map_some'] at ha
              by_cases hk : j.id = jsel.id
              · have hjsel : j = jsel :=
                  eq_of_mem_id_eq_nodup h2 (oldestPending_mem hop) (findJob_mem hb) hk
                have hpend : j.status = Status.pending := by
                  rw [hjsel]; exact oldestPending_pending hop
                rw [if_pos hk] at ha
                cases ha
                exact Or.inr (Or.inl ⟨hpend, rfl⟩)
              · rw [if_neg hk] at ha
                cases ha
                exact Or.inl rfl
  | process now o removeFails =>
      simp only [applyOp] at ha
      cases hcur : s.current with
      | none =>
          rw [hcur] at ha
          simp only at ha
          rw [hb] at ha
          cases ha
          exact Or.inl rfl
      | some c =>
          rw [hcur] at ha
          simp only [processJob] at ha
          cases o with
          | success res elapsed =>
              cases hfind : findJob s.store c with
              | none =>
                  rw [hfind] at ha
                  simp only at ha
                  rw [hb] at ha
                  cases ha
                  exact Or.inl rfl
              | some k =>
                  rw [hfind] at ha
                  simp only [updateById] at ha
                  have hf : ∀ k0 : JobRecord,
                      ((if k0.id = c
                        then { k0 with status := Status.completed,
                                       transcript := some (encodeTranscript res),
                                       duration := res.duration,
                                       processing_time := some elapsed,
                                       completed_at := some now,
                                       updated_at := now }
                        else k0) : JobRecord).id = k0.id := by
                    intro k0
                    by_cases hk : k0.id = c <;> simp [hk]
                  rw [findJob_map_pres hf, hb] at ha
                  simp only [Option.map_some'] at ha
                  by_cases hk : j.id = c
                  · have hproc : j.status = Status.processing :=
                      h3 c hcur j (findJob_mem hb) hk
                    rw [if_pos hk] at ha
                    cases ha
                    exact Or.inr (Or.inr (Or.inl ⟨hproc, rfl⟩))
                  · rw [if_neg hk] at ha
                    cases ha
                    exact Or.inl rfl
          | failure msg elapsed =>
              cases hfind : findJob s.store c with
              | none =>
                  rw [hfind] at ha
                  simp only at ha
                  rw [hb] at ha
                  cases ha
                  exact Or.inl rfl
              | some k =>
                  rw [hfind] at ha
                  simp only [updateById] at ha
                  have hf : ∀ k0 : JobRecord,
                      ((if k0.id = c
                        then { k0 with status := Status.failed,
                                       error_message := some msg,
                                       processing_time := elapsed,
                                       updated_at := now }
                        else k0) : JobRecord).id = k0.id := by
                    intro k0
                    by_cases hk : k0.id = c <;> simp [hk]
                  rw [findJob_map_pres hf, hb] at ha
                  simp only [Option.map_some'] at ha
                  by_cases hk : j.id = c
                  · have hproc : j.status = Status.processing :=
                      h3 c hcur j (findJob_mem hb) hk
                    rw [if_pos hk] at ha
                    cases ha
                    exact Or.inr (Or.inr (Or.inr ⟨hproc, rfl⟩))
                  · rw [if_neg hk] at ha
                    cases ha
                    exact Or.inl rfl
  | deleteJob d removeFails =>
      simp only [applyOp] at ha
      cases hfind : findJob s.store d with
      | none =>
          rw [hfind] at ha
          simp only at ha
          rw [hb] at ha
          cases ha
          exact Or.inl rfl
      | some jd =>
          rw [hfind] at ha
          simp only at ha
          have hsub : List.Sublist (s.store.eraseP (fun k => decide (k.id = d))) s.store :=
            List.eraseP_sublist _
          have hmem2 : j2 ∈ s.store := hsub.subset (findJob_mem ha)
          have hid2 : j2.id = i := findJob_id ha
          have hsame : findJob s.store j2.id = some j2 := findJob_of_mem_nodup h2 hmem2
          rw [hid2, hb] at hsame
          cases hsame
          exact Or.inl rfl

/-! ### The claims -/

/-- Claim C1: `claimNextPending` (`_get_next_job`) selects, among all records
with status `pending`, one with the least `created_at`, sets its status to
`processing`, and returns that updated record; if no record is `pending` it
changes nothing and returns nothing; and on a store holding two pending jobs
with the first created earlier, it claims the first. -/
theorem claim_C1_get_next_job_selects_oldest_pending :
    ∀ (now : Nat) (store : List JobRecord),
      ((∀ j ∈ store, j.status ≠ Status.pending) → getNextJob now store = (none, store)) ∧
      (∀ (r : JobRecord) (store2 : List JobRecord),
        getNextJob now store = (some r, store2) →
        ∃ j, j ∈ store ∧ j.status = Status.pending ∧
          (∀ k ∈ store, k.status = Status.pending → j.created_at ≤ k.created_at) ∧
          r = { j with status := Status.processing, updated_at := now } ∧
          store2 = store.map (fun k =>
            if k.id = j.id
            then { k with status := Status.processing, updated_at := now }
            else k)) ∧
      (∀ j3 j4 : JobRecord, j3.status = Status.pending → j4.status = Status.pending →
        j3.created_at < j4.created_at →
        (getNextJob now [j3, j4]).fst =
          some { j3 with status := Status.processing, updated_at := now }) := by
  intro now store
  refine ⟨?_, ?_, ?_⟩
  · intro hnone
    unfold getNextJob
    rw [oldestPending_eq_none hnone]
  · intro r store2 h
    cases hop : oldestPending store with
    | none =>
        unfold getNextJob at h
        rw [hop] at h
        cases h
    | some j =>
        unfold getNextJob at h
        rw [hop] at h
        injection h with h1 h2
        exact ⟨j, oldestPending_mem hop, oldestPending_pending hop,
          oldestPending_min hop, (Option.some.inj h1).symm, h2.symm⟩
  · intro j3 j4 h3 h4 hlt
    have hne : ¬ j4.created_at < j3.created_at := not_lt_of_gt hlt
    simp [getNextJob, oldestPending, pickOlder, h3, h4, hne]

/-- Claim C1 witness: with two pending jobs created at times 1 and 2, the
older one is claimed. -/
theorem claim_C1_witness :
    (getNextJob 5 [sampleJob "j3" 1, sampleJob "j4" 2]).fst =
      some { sampleJob "j3" 1 with status := Status.processing, updated_at := 5 } :=
  (claim_C1_get_next_job_selects_oldest_pending 5 [sampleJob "j3" 1, sampleJob "j4" 2]).2.2
    (sampleJob "j3" 1) (sampleJob "j4" 2) rfl rfl (by decide)

/-- Claim C5 counterexample: two jobs that differ in `min_speakers`,
`max_speakers`, `vad_onset` and `vad_offset` produce the identical
`transcriber.transcribe` invocation, so those four configuration fields are
not passed (verbatim or otherwise) to the transcription call. -/
theorem claim_C5_counterexample :
    jobVadA.min_speakers ≠ jobVadB.min_speakers ∧
    jobVadA.max_speakers ≠ jobVadB.max_speakers ∧
    jobVadA.vad_onset ≠ jobVadB.vad_onset ∧
    jobVadA.vad_offset ≠ jobVadB.vad_offset ∧
    buildTranscribeCall jobVadA = buildTranscribeCall jobVadB := by
  refine ⟨by decide, by decide, by decide, by decide, rfl⟩

/-- Claim C5 (amended): the worker's transcription invocation receives
`model`, `language`, `diarize` and `chunk_size` verbatim from the job record
(together with the job's audio path and id); `batch_size` is the constant 16,
`asr_options` the empty dict, `align` true and `task` "transcribe", and the
job's `min_speakers`, `max_speakers`, `vad_onset` and `vad_offset` are not
passed at all. -/
theorem claim_C5_passed_fields :
    ∀ job : JobRecord,
      (buildTranscribeCall job).whisper_model = job.model ∧
      (buildTranscribeCall job).language = job.language ∧
      (buildTranscribeCall job).diarize = job.diarize ∧
      (buildTranscribeCall job).chunk_size = job.chunk_size ∧
      (buildTranscribeCall job).audio_file_path = job.audio_path ∧
      (buildTranscribeCall job).request_id = job.id ∧
      (buildTranscribeCall job).batch_size = 16 ∧
      (buildTranscribeCall job).asr_options_empty = true ∧
      (buildTranscribeCall job).align = true ∧
      (buildTranscribeCall job).task = "transcribe" :=
  fun _ => ⟨rfl, rfl, rfl, rfl, rfl, rfl, rfl, rfl, rfl, rfl⟩

/-- Claim C8: `deleteArtifact` (`_cleanup_audio_file`) is total and never
raises to its caller: it always returns `ok`; when the path is absent it
returns without touching the filesystem; and a failing removal never changes
the store `_process_job` commits, so a cleanup failure cannot change or
prevent the job's terminal status. -/
theorem claim_C8_cleanup_total :
    ∀ (rm rm2 : Bool) (fs : List String) (path : String) (now : Nat)
      (o : Outcome) (i : String) (store : List JobRecord),
      (cleanupAudioFileRun rm fs path).isOk = true ∧
      (path ∉ fs → cleanupAudioFileRun rm fs path = Except.ok fs) ∧
      (processJob now o i store fs rm).store = (processJob now o i store fs rm2).store := by
  intro rm rm2 fs path now o i store
  refine ⟨?_, ?_, ?_⟩
  · cases hbody : cleanupAudioFileBody rm fs path <;>
      simp [cleanupAudioFileRun, hbody, Except.isOk, Except.toBool]
  · intro h
    have hcond : ¬ (path ≠ "" ∧ path ∈ fs) := fun hc => h hc.2
    simp [cleanupAudioFileRun, cleanupAudioFileBody, hcond]
  · cases o <;> cases hfind : findJob store i <;> simp [processJob, hfind]

/-- Claim C8 witness: a failing removal attempt on an absent path still
returns `ok` with the filesystem unchanged. -/
theorem claim_C8_witness :
    cleanupAudioFileRun true [] "/uploads/a.wav" = Except.ok [] :=
  (claim_C8_cleanup_total true false [] "/uploads/a.wav" 0
    (Outcome.failure "e" none) "j" []).2.1 (by decide)

/-- Claim C9: an unhandled error raised inside one worker-loop iteration never
terminates the loop — the error is caught and logged and the loop goes on —
and the loop emits its exit event only when a false `_running` flag (cleared
by `stop`) is read. -/
theorem claim_C9_loop_survives_errors :
    ∀ (flags fs2 : List Bool) (outs os : List IterOutcome) (m : String),
      (runLoop (true :: fs2) (IterOutcome.raised m :: os) =
        LoopEvent.caughtError m :: runLoop fs2 os) ∧
      (LoopEvent.exited ∈ runLoop flags outs → false ∈ flags) := by
  intro flags fs2 outs os m
  constructor
  · simp [runLoop, iterEvent]
  · induction flags generalizing outs with
    | nil =>
        intro h
        simp [runLoop] at h
    | cons f fl ih =>
        intro h
        cases outs with
        | nil =>
            by_cases hf : f
            · subst hf
              simp [runLoop] at h
            · simp at hf
              subst hf
              exact List.mem_cons_self _ _
        | cons o os2 =>
            by_cases hf : f
            · subst hf
              simp only [runLoop, if_pos] at h
              rcases List.mem_cons.mp h with hx | hx
              · cases o <;> cases hx
              · exact List.mem_cons_of_mem _ (ih os2 hx)
            · simp at hf
              subst hf
              exact List.mem_cons_self _ _

/-- Claim C9 witness: a loop trace whose first iteration raises still reaches
the later exit on the cleared flag — the exit came from the flag, which is
indeed false at that point. -/
theorem claim_C9_witness : false ∈ [true, false] :=
  (claim_C9_loop_survives_errors [true, false] []
    [IterOutcome.raised "x", IterOutcome.noJob] [] "boom").2 (by decide)

/-- Claim C2: over every reachable store state and every operation of the core
(producer insert, worker claim, worker success or failure write, consumer
delete), a row observed before and after the operation changes status only
along `pending→processing`, `processing→completed` or `processing→failed`
(or not at all): no regression, no skipped `processing`, no transition out of
a terminal state. -/
theorem claim_C2_status_transitions :
    ∀ (ops : List Op) (op : Op) (i : String) (j j2 : JobRecord),
      findJob (runOps ops).store i = some j →
      findJob (applyOp (runOps ops) op).store i = some j2 →
      allowedTransition j.status j2.status :=
  fun ops op _ _ _ hb ha => step_transition (inv_runOps ops) op hb ha

/-- Claim C2 witness: claiming the freshly inserted job `j1` moves it from
`pending` to `processing`, an allowed transition. -/
theorem claim_C2_witness : allowedTransition Status.pending Status.processing :=
  claim_C2_status_transitions opsCreateOne (Op.claim 1) "j1"
    (newJobRecord 0 "j1" "/uploads/j1.wav" none cfgSample)
    { newJobRecord 0 "j1" "/uploads/j1.wav" none cfgSample with
        status := Status.processing, updated_at := 1 }
    (by decide) (by decide)

/-- Claim C3: in every reachable store state, every row has `transcript`
non-null exactly when its status is `completed`, and `error_message` non-null
exactly when its status is `failed`. -/
theorem claim_C3_result_field_iff :
    ∀ (ops : List Op) (j : JobRecord), j ∈ (runOps ops).store →
      (j.transcript ≠ none ↔ j.status = Status.completed) ∧
      (j.error_message ≠ none ↔ j.status = Status.failed) := by
  intro ops j hj
  have hfi := (inv_runOps ops).2.2.2.2 j hj
  cases hst : j.status with
  | pending =>
      simp [FieldsInv, hst] at hfi
      simp [hfi.1, hfi.2.1, hst]
  | processing =>
      simp [FieldsInv, hst] at hfi
      simp [hfi.1, hfi.2.1, hst]
  | completed =>
      simp [FieldsInv, hst] at hfi
      simp [hfi.1, hfi.2.1, hst]
  | failed =>
      simp [FieldsInv, hst] at hfi
      simp [hfi.1, hfi.2.1, hst]

/-- Claim C3 witness: the invariant holds for the freshly inserted pending
job, whose transcript and error message are both null. -/
theorem claim_C3_witness :
    (((sampleJob "j1" 0).transcript ≠ none ↔ (sampleJob "j1" 0).status = Status.completed) ∧
     ((sampleJob "j1" 0).error_message ≠ none ↔ (sampleJob "j1" 0).status = Status.failed)) :=
  claim_C3_result_field_iff opsCreateOne (sampleJob "j1" 0) (by decide)

/-- Claim C4 counterexample: after insert, claim, and a failing transcription
invocation, the job is in the `failed` terminal state with `completed_at`
still null — the failure path of `_process_job` (worker.py lines 197-202)
never writes `completed_at`, contradicting the claim that `completed_at` is
non-null on every job entering `failed`. -/
theorem claim_C4_counterexample :
    (findJob (runOps opsFailOne).store "j1").map (fun j => (j.status, j.completed_at)) =
      some (Status.failed, none) := by
  decide

/-- Claim C4 (amended): whenever the worker performs the processing→failed
transition, the resulting record carries `error_message = str(e)`, the
best-effort `processing_time`, and a bumped `updated_at` — but `completed_at`
is not written on the failure path and remains null (it is set only when
entering `completed`). -/
theorem claim_C4_failure_write_fields :
    ∀ (ops : List Op) (now : Nat) (msg : String) (pt : Option Rat) (rm : Bool)
      (i : String) (j : JobRecord),
      (runOps ops).current = some i →
      findJob (runOps ops).store i = some j →
      ∃ j2,
        findJob (applyOp (runOps ops)
          (Op.process now (Outcome.failure msg pt) rm)).store i = some j2 ∧
        j2.status = Status.failed ∧
        j2.error_message = some msg ∧
        j2.processing_time = pt ∧
        j2.updated_at = now ∧
        j2.completed_at = none := by
  intro ops now msg pt rm i j hcur hfind
  obtain ⟨h1, h2, h3, h4, h5⟩ := inv_runOps ops
  have hji : j.id = i := findJob_id hfind
  have hproc : j.status = Status.processing := h3 i hcur j (findJob_mem hfind) hji
  have hfi := h5 j (findJob_mem hfind)
  simp [FieldsInv, hproc] at hfi
  have hf : ∀ k0 : JobRecord,
      ((if k0.id = i
        then { k0 with status := Status.failed,
                       error_message := some msg,
                       processing_time := pt,
                       updated_at := now }
        else k0) : JobRecord).id = k0.id := by
    intro k0
    by_cases hk : k0.id = i <;> simp [hk]
  refine ⟨{ j with
              status := Status.failed
              error_message := some msg
              processing_time := pt
              updated_at := now }, ?_, rfl, rfl, rfl, rfl, ?_⟩
  · simp only [applyOp]
    rw [hcur]
    simp only [processJob]
    rw [hfind]
    simp only [updateById]
    rw [findJob_map_pres hf, hfind]
    simp only [Option.map_some']
    rw [if_pos hji]
  · exact hfi.2.2

/-- Claim C4 witness: the amended failure-write property at the concrete
claimed job `j1`. -/
theorem claim_C4_witness :
    ∃ j2,
      findJob (applyOp (runOps opsClaimOne)
        (Op.process 2 (Outcome.failure "boom" (some 3)) false)).store "j1" = some j2 ∧
      j2.status = Status.failed ∧
      j2.error_message = some "boom" ∧
      j2.processing_time = some 3 ∧
      j2.updated_at = 2 ∧
      j2.completed_at = none :=
  claim_C4_failure_write_fields opsClaimOne 2 "boom" (some 3) false "j1"
    { newJobRecord 0 "j1" "/uploads/j1.wav" none cfgSample with
        status := Status.processing, updated_at := 1 }
    (by decide) (by decide)

/-- After a (non-failing) cleanup of a non-empty path, the path no longer
exists. -/
theorem not_mem_cleanupAudioFile_self {fs : List String} {p : String}
    (hp : p ≠ "") : p ∉ cleanupAudioFile false fs p := by
  by_cases hin : p ∈ fs
  · have hcond : p ≠ "" ∧ p ∈ fs := ⟨hp, hin⟩
    simp only [cleanupAudioFile, cleanupAudioFileRun, cleanupAudioFileBody,
      osRemove, if_pos hcond, if_neg (Bool.false_ne_true)]
    intro hmem
    have := List.of_mem_filter hmem
    simp at this
  · have hcond : ¬ (p ≠ "" ∧ p ∈ fs) := fun hc => hin hc.2
    simp only [cleanupAudioFile, cleanupAudioFileRun, cleanupAudioFileBody,
      if_neg hcond]
    exact hin

/-- Claim C6: in one worker iteration over a claimed job that is still in the
store, both the success and the failure outcome leave the job in a terminal
state (`completed` or `failed`) and request artifact deletion exactly once,
for the job's audio path; when the removal itself does not fail, the path no
longer exists afterwards.  When the job was externally deleted before the
write-back, nothing reaches a terminal state and no cleanup is requested. -/
theorem claim_C6_cleanup_exactly_once :
    ∀ (now : Nat) (o : Outcome) (i : String) (store : List JobRecord)
      (fs : List String) (rm : Bool) (k : JobRecord),
      findJob store i = some k →
      k.audio_path ≠ "" →
      (∃ j2, findJob (processJob now o i store fs rm).store i = some j2 ∧
        (j2.status = Status.completed ∨ j2.status = Status.failed)) ∧
      (processJob now o i store fs rm).cleanupCalls = [k.audio_path] ∧
      (rm = false → k.audio_path ∉ (processJob now o i store fs rm).fs) := by
  intro now o i store fs rm k hfind hp
  have hki : k.id = i := findJob_id hfind
  cases o with
  | success res elapsed =>
      have hf : ∀ k0 : JobRecord,
          ((if k0.id = i
            then { k0 with status := Status.completed,
                           transcript := some (encodeTranscript res),
                           duration := res.duration,
                           processing_time := some elapsed,
                           completed_at := some now,
                           updated_at := now }
            else k0) : JobRecord).id = k0.id := by
        intro k0
        by_cases hk : k0.id = i <;> simp [hk]
      refine ⟨⟨{ k with
                  status := Status.completed
                  transcript := some (encodeTranscript res)
                  duration := res.duration
                  processing_time := some elapsed
                  completed_at := some now
                  updated_at := now }, ?_, Or.inl rfl⟩, ?_, ?_⟩
      · simp only [processJob, hfind, updateById]
        rw [findJob_map_pres hf, hfind]
        simp only [Option.map_some']
        rw [if_pos hki]
      · simp only [processJob, hfind]
      · intro hrm
        subst hrm
        simp only [processJob, hfind]
        exact not_mem_cleanupAudioFile_self hp
  | failure msg elapsed =>
      have hf : ∀ k0 : JobRecord,
          ((if k0.id = i
            then { k0 with status := Status.failed,
                           error_message := some msg,
                           processing_time := elapsed,
                           updated_at := now }
            else k0) : JobRecord).id = k0.id := by
        intro k0
        by_cases hk : k0.id = i <;> simp [hk]
      refine ⟨⟨{ k with
                  status := Status.failed
                  error_message := some msg
                  processing_time := elapsed
                  updated_at := now }, ?_, Or.inr rfl⟩, ?_, ?_⟩
      · simp only [processJob, hfind, updateById]
        rw [findJob_map_pres hf, hfind]
        simp only [Option.map_some']
        rw [if_pos hki]
      · simp only [processJob, hfind]
      · intro hrm
        subst hrm
        simp only [processJob, hfind]
        exact not_mem_cleanupAudioFile_self hp

/-- Claim C6 witness: one failing iteration over the stored job `j1` marks it
failed, requests deletion of its audio path exactly once, and the path is
gone afterwards. -/
theorem claim_C6_witness :
    (∃ j2, findJob (processJob 2 (Outcome.failure "engine timeout" none) "j1"
        [sampleJob "j1" 0] ["/uploads/j1.wav"] false).store "j1" = some j2 ∧
      (j2.status = Status.completed ∨ j2.status = Status.failed)) ∧
    (processJob 2 (Outcome.failure "engine timeout" none) "j1"
        [sampleJob "j1" 0] ["/uploads/j1.wav"] false).cleanupCalls =
      [(sampleJob "j1" 0).audio_path] ∧
    (false = false → (sampleJob "j1" 0).audio_path ∉
      (processJob 2 (Outcome.failure "engine timeout" none) "j1"
        [sampleJob "j1" 0] ["/uploads/j1.wav"] false).fs) :=
  claim_C6_cleanup_exactly_once 2 (Outcome.failure "engine timeout" none) "j1"
    [sampleJob "j1" 0] ["/uploads/j1.wav"] false (sampleJob "j1" 0)
    (by decide) (by decide)

/-- Claim C7 counterexample: with a single pending row and the interleaved
schedule (both SELECTs before either commit), both `claimNextPending`
invocations set the row to `processing` and both return it — the row is
claimed by two callers, because the source's claim is a read followed by a
separate unconditional update, not a single atomic conditional update. -/
theorem claim_C7_counterexample :
    (runRace 7 (initRace [sampleJob "jr" 0]) schedInterleaved).a.ret =
      some (some { sampleJob "jr" 0 with status := Status.processing, updated_at := 7 }) ∧
    (runRace 7 (initRace [sampleJob "jr" 0]) schedInterleaved).b.ret =
      some (some { sampleJob "jr" 0 with status := Status.processing, updated_at := 7 }) := by
  constructor <;> rfl

/-- A row of the claim-updated store that is still pending cannot carry the
claimed id: the update sets every row with that id to `processing`. -/
theorem pending_after_claim_update {store : List JobRecord} {now : Nat}
    {c : String} {j1 : JobRecord}
    (hmem : j1 ∈ updateById store c
      (fun k => { k with status := Status.processing, updated_at := now }))
    (hpend : j1.status = Status.pending) : j1.id ≠ c := by
  rcases List.mem_map.mp hmem with ⟨k0, _, rfl⟩
  by_cases hk : k0.id = c
  · rw [if_pos hk] at hpend
    cases hpend
  · rw [if_neg hk] at hpend ⊢
    exact hk

/-- Claim C7 (amended): the source claim is a read-then-write pair, so the
exactly-one-winner guarantee holds only for serialized invocations: when two
`claimNextPending` invocations run one after the other, and both return a
row, the rows are distinct — the second SELECT can only pick a still-pending
row, and the first invocation's update left no pending row with its id. -/
theorem claim_C7_serialized_unique :
    ∀ (now : Nat) (store : List JobRecord) (ja jb : JobRecord),
      (runRace now (initRace store) schedSerial).a.ret = some (some ja) →
      (runRace now (initRace store) schedSerial).b.ret = some (some jb) →
      ja.id ≠ jb.id := by
  intro now store ja jb ha hb
  cases hop : oldestPending store with
  | none =>
      simp [runRace, schedSerial, raceStep, sessionRead, sessionWrite, initRace,
        hop] at ha
  | some j0 =>
      cases hop1 : oldestPending (updateById store j0.id
          (fun k => { k with status := Status.processing, updated_at := now })) with
      | none =>
          simp [runRace, schedSerial, raceStep, sessionRead, sessionWrite,
            initRace, hop, hop1] at hb
      | some j1 =>
          simp only [runRace, schedSerial, raceStep, sessionRead, sessionWrite,
            initRace, hop, hop1, Option.some.injEq] at ha hb
          have hja : ja.id = j0.id := (findJob_id ha).symm ▸ rfl
          have hjb : jb.id = j1.id := (findJob_id hb).symm ▸ rfl
          have hne : j1.id ≠ j0.id :=
            pending_after_claim_update (oldestPending_mem hop1)
              (oldestPending_pending hop1)
          rw [hja, hjb]
          exact fun h => hne (h.symm)

/-- Claim C7 witness: serialized claims over two pending rows hand out two
distinct rows. -/
theorem claim_C7_witness :
    ({ sampleJob "j3" 1 with status := Status.processing, updated_at := 5 } : JobRecord).id ≠
      ({ sampleJob "j4" 2 with status := Status.processing, updated_at := 5 } : JobRecord).id :=
  claim_C7_serialized_unique 5 [sampleJob "j3" 1, sampleJob "j4" 2] _ _
    (by decide) (by decide)

theorem mem_insertDesc {j x : JobRecord} {l : List JobRecord}
    (h : x ∈ insertDesc j l) : x = j ∨ x ∈ l := by
  induction l with
  | nil =>
      rcases List.mem_singleton.mp h with rfl
      exact Or.inl rfl
  | cons k rest ih =>
      unfold insertDesc at h
      by_cases hc : j.created_at ≤ k.created_at
      · rw [if_pos hc] at h
        rcases List.mem_cons.mp h with rfl | h2
        · exact Or.inr (List.mem_cons_self _ _)
        · rcases ih h2 with h3 | h3
          · exact Or.inl h3
          · exact Or.inr (List.mem_cons_of_mem _ h3)
      · rw [if_neg hc] at h
        rcases List.mem_cons.mp h with rfl | h2
        · exact Or.inl rfl
        · exact Or.inr h2

theorem mem_sortByCreatedDesc {x : JobRecord} {l : List JobRecord}
    (h : x ∈ sortByCreatedDesc l) : x ∈ l := by
  induction l with
  | nil => cases h
  | cons k rest ih =>
      rcases mem_insertDesc h with h2 | h2
      · rw [h2]
        exact List.mem_cons_self _ _
      · exact List.mem_cons_of_mem _ (ih h2)

/-- Claim C10: a job stored as `completed` whose transcript column is not
valid JSON is still returned successfully by the read operations — `get_job`
answers `ok` and, in both `get_job` and `list_jobs` responses, the job's
`text`, `segments` and `detected_language` are all null, with no error
surfaced to the caller. -/
theorem claim_C10_corrupt_transcript_reads :
    ∀ (parse : String → Option TranscriptPayload) (store : List JobRecord)
      (i : String) (job : JobRecord) (t : String),
      (store.map JobRecord.id).Nodup →
      findJob store i = some job →
      job.status = Status.completed →
      job.transcript = some t →
      t ≠ "" →
      parse t = none →
      getJob parse store i = Except.ok (jobToResponse parse job) ∧
      (jobToResponse parse job).status = Status.completed ∧
      (jobToResponse parse job).text = none ∧
      (jobToResponse parse job).segments = none ∧
      (jobToResponse parse job).detected_language = none ∧
      (∀ (page limit : Int) (sf : Option String) (r : JobResponse),
        r ∈ (listJobs parse store page limit sf).jobs → r.id = i →
        r.text = none ∧ r.segments = none ∧ r.detected_language = none) := by
  intro parse store i job t hnd hfind hst htr hne hparse
  have hfields : (jobToResponse parse job).text = none ∧
      (jobToResponse parse job).segments = none ∧
      (jobToResponse parse job).detected_language = none := by
    simp [jobToResponse, htr, hne, hparse]
  refine ⟨?_, ?_, hfields.1, hfields.2.1, hfields.2.2, ?_⟩
  · simp [getJob, hfind]
  · simp [jobToResponse, hst]
  · intro page limit sf r hr hid
    simp only [listJobs] at hr
    rcases List.mem_map.mp hr with ⟨k, hk, rfl⟩
    have hkstore : k ∈ store := by
      have hk2 := mem_sortByCreatedDesc (List.drop_subset _ _ (List.take_subset _ _ hk))
      cases sf with
      | none => exact hk2
      | some sfv =>
          dsimp only at hk2
          by_cases hs : sfv ≠ ""
          · rw [if_pos hs] at hk2
            exact List.mem_of_mem_filter hk2
          · rw [if_neg hs] at hk2
            exact hk2
    have hidk : (jobToResponse parse k).id = k.id := rfl
    rw [hidk] at hid
    have hkid : k.id = job.id := hid.trans (findJob_id hfind).symm
    have hkj : k = job := eq_of_mem_id_eq_nodup hnd (findJob_mem hfind) hkstore hkid
    rw [hkj]
    exact hfields

/-- Claim C10 witness: a completed job whose stored transcript fails to parse
is still served by `get_job`, with null `text`, `segments` and
`detected_language`. -/
theorem claim_C10_witness :
    getJob (fun _ => none) [jobBadTranscript] "jc" =
      Except.ok (jobToResponse (fun _ => none) jobBadTranscript) ∧
    (jobToResponse (fun _ => none) jobBadTranscript).text = none ∧
    (jobToResponse (fun _ => none) jobBadTranscript).segments = none ∧
    (jobToResponse (fun _ => none) jobBadTranscript).detected_language = none := by
  have h := claim_C10_corrupt_transcript_reads (fun _ => none) [jobBadTranscript]
    "jc" jobBadTranscript "not valid json" (by decide) (by decide) rfl rfl
    (by decide) rfl
  exact ⟨h.1, h.2.2.1, h.2.2.2.1, h.2.2.2.2.1⟩

end WhisperxApiServer

